import Mathlib

/-!
# Verification of the bablify WebRTC test harness

A shallow embedding, in Lean 4, of the two Python scripts of this repository:

* `webrtc_test_server.py` — the standalone WebRTC test server: the
  `safe_channel_send` guard, the per-session callbacks (`on_datachannel`,
  `on_open`, `on_message`, `on_close`) and the HTTP handlers
  (`handle_webrtc_offer`, `handle_datachannel_test`, `handle_status`);
* `debug_webrtc_connection.py` — the diagnostic client
  (`diagnose_webrtc_issues`).

JSON values are modelled by the inductive `JsonValue` (JSON without floats —
every payload the scripts build is made of strings, objects, arrays, booleans
and integers).  `json.dumps` / `json.loads` are modelled by an executable
serializer and an executable recursive-descent parser, and the round-trip
`json_loads (json_dumps v) = some v` is proved.

Effects are made explicit: log output becomes a `List LogLevel`, the text
handed to a channel's `send` primitive is collected in a list, a Python
exception becomes the `Except`/error branch of a result, and nondeterministic
inputs (`uuid.uuid4()`, `datetime.now()`, network outcomes) become explicit
parameters.
-/

/-- A JSON value as handled by Python's `json` module, minus floats (the
scripts only ever build payloads out of the constructors below). -/
inductive JsonValue where
  | null : JsonValue
  | bool : Bool → JsonValue
  | num : Int → JsonValue
  | str : String → JsonValue
  | arr : List JsonValue → JsonValue
  | obj : List (String × JsonValue) → JsonValue
deriving Repr

/-- Structural induction principle for `JsonValue` (the automatically
generated recursor of the nested inductive is awkward to use directly). -/
theorem JsonValue.indOn {P : JsonValue → Prop}
    (hnull : P .null) (hbool : ∀ b, P (.bool b)) (hnum : ∀ n, P (.num n))
    (hstr : ∀ s, P (.str s))
    (harr : ∀ xs, (∀ x ∈ xs, P x) → P (.arr xs))
    (hobj : ∀ fs, (∀ k v, (k, v) ∈ fs → P v) → P (.obj fs)) :
    ∀ v, P v
  | .null => hnull
  | .bool b => hbool b
  | .num n => hnum n
  | .str s => hstr s
  | .arr xs => harr xs (fun x hx => JsonValue.indOn hnull hbool hnum hstr harr hobj x)
  | .obj fs => hobj fs (fun k v hkv => JsonValue.indOn hnull hbool hnum hstr harr hobj v)
termination_by v => sizeOf v
decreasing_by
  · have := List.sizeOf_lt_of_mem hx
    simp only [JsonValue.arr.sizeOf_spec]
    omega
  · have := List.sizeOf_lt_of_mem hkv
    simp only [Prod.mk.sizeOf_spec] at this
    simp only [JsonValue.obj.sizeOf_spec]
    omega

mutual

/-- Boolean equality on `JsonValue`. -/
def jeq : JsonValue → JsonValue → Bool
  | .null, .null => true
  | .bool a, .bool b => a = b
  | .num a, .num b => a = b
  | .str a, .str b => a = b
  | .arr a, .arr b => jeqList a b
  | .obj a, .obj b => jeqFields a b
  | _, _ => false

/-- Boolean equality on lists of `JsonValue`. -/
def jeqList : List JsonValue → List JsonValue → Bool
  | x :: xs, y :: ys => jeq x y && jeqList xs ys
  | [], [] => true
  | _, _ => false

/-- Boolean equality on JSON object field lists. -/
def jeqFields : List (String × JsonValue) → List (String × JsonValue) → Bool
  | [], [] => true
  | (k, v) :: as, (k2, v2) :: bs => k = k2 && jeq v v2 && jeqFields as bs
  | _, _ => false

end

theorem jeq_iff_eq : ∀ a b : JsonValue, jeq a b = true ↔ a = b := by
  intro a
  induction a using JsonValue.indOn with
  | hnull => intro b; cases b <;> simp [jeq]
  | hbool x => intro b; cases b <;> simp [jeq]
  | hnum x => intro b; cases b <;> simp [jeq]
  | hstr x => intro b; cases b <;> simp [jeq]
  | harr xs ih =>
      intro b
      cases b <;> simp only [jeq, Bool.false_eq_true, false_iff] <;>
        try (intro h; exact JsonValue.noConfusion h)
      rename_i ys
      suffices h : jeqList xs ys = true ↔ xs = ys by
        simpa using h
      induction xs generalizing ys with
      | nil => cases ys <;> simp [jeqList]
      | cons x xs ihx =>
          cases ys with
          | nil => simp [jeqList]
          | cons y ys =>
              simp only [jeqList, Bool.and_eq_true, List.cons.injEq]
              constructor
              · rintro ⟨h1, h2⟩
                exact ⟨(ih x (by simp) y).1 h1,
                  (ihx (fun z hz => ih z (by simp [hz])) ys).1 h2⟩
              · rintro ⟨h1, h2⟩
                exact ⟨(ih x (by simp) y).2 h1,
                  (ihx (fun z hz => ih z (by simp [hz])) ys).2 h2⟩
  | hobj fs ih =>
      intro b
      cases b <;> simp only [jeq, Bool.false_eq_true, false_iff] <;>
        try (intro h; exact JsonValue.noConfusion h)
      rename_i gs
      suffices h : jeqFields fs gs = true ↔ fs = gs by
        simpa using h
      induction fs generalizing gs with
      | nil => cases gs <;> simp [jeqFields]
      | cons f fs ihf =>
          cases gs with
          | nil => obtain ⟨k, v⟩ := f; simp [jeqFields]
          | cons g gs =>
              obtain ⟨k, v⟩ := f
              obtain ⟨k2, v2⟩ := g
              simp only [jeqFields, Bool.and_eq_true, List.cons.injEq,
                Prod.mk.injEq, decide_eq_true_eq]
              constructor
              · rintro ⟨⟨h0, h1⟩, h2⟩
                exact ⟨⟨h0, (ih k v (by simp) v2).1 h1⟩,
                  (ihf (fun k' v' hv' => ih k' v' (by simp [hv'])) gs).1 h2⟩
              · rintro ⟨⟨h0, h1⟩, h2⟩
                exact ⟨⟨h0, (ih k v (by simp) v2).2 h1⟩,
                  (ihf (fun k' v' hv' => ih k' v' (by simp [hv'])) gs).2 h2⟩

instance : DecidableEq JsonValue := fun a b =>
  decidable_of_iff (jeq a b = true) (jeq_iff_eq a b)

example : (JsonValue.obj [("a", .num 1)]) ≠ JsonValue.null := by decide

/-! ## The serializer: a model of Python's `json.dumps` (default options)

`json.dumps` with its default separators renders `{"a": 1, "b": [2]}` as
`{"a": 1, "b": [2]}` — item separator `", "`, key separator `": "`.  Strings
are double-quoted with `\"  \\  \n  \t  \r` escaped (the control characters
the scripts' payloads can contain); integers are rendered in decimal. -/

/-- The decimal digit character for `d` (`d < 10`; callers maintain this). -/
def digitChar : Nat → Char
  | 0 => '0'
  | 1 => '1'
  | 2 => '2'
  | 3 => '3'
  | 4 => '4'
  | 5 => '5'
  | 6 => '6'
  | 7 => '7'
  | 8 => '8'
  | _ => '9'

/-- Fuel-driven helper for `natChars` (structural recursion on the fuel so
that the definition reduces inside the kernel). -/
def natCharsAux : Nat → Nat → List Char
  | 0, _ => []
  | fuel + 1, n =>
    if n < 10 then [digitChar n]
    else natCharsAux fuel (n / 10) ++ [digitChar (n % 10)]

/-- Decimal rendering of a natural number, most significant digit first
(Python's `str` of a nonnegative `int`). -/
def natChars (n : Nat) : List Char := natCharsAux (n + 1) n

theorem natCharsAux_congr : ∀ f1 f2 n, n < f1 → n < f2 →
    natCharsAux f1 n = natCharsAux f2 n := by
  intro f1
  induction f1 with
  | zero => omega
  | succ g ih =>
      intro f2 n h1 h2
      cases f2 with
      | zero => omega
      | succ h =>
          simp only [natCharsAux]
          by_cases hn : n < 10
          · simp [hn]
          · have hlt : n / 10 < n := Nat.div_lt_self (by omega) (by omega)
            simp only [hn, if_false]
            rw [ih h (n / 10) (by omega) (by omega)]

/-- The recursive unfolding of `natChars`. -/
theorem natChars_eq (n : Nat) :
    natChars n = if n < 10 then [digitChar n]
      else natChars (n / 10) ++ [digitChar (n % 10)] := by
  by_cases hn : n < 10
  · simp [natChars, natCharsAux, hn]
  · have hlt : n / 10 < n := Nat.div_lt_self (by omega) (by omega)
    simp only [hn, if_false]
    have h1 : natChars n = natCharsAux n (n / 10) ++ [digitChar (n % 10)] := by
      simp [natChars, natCharsAux, hn]
    rw [h1, natCharsAux_congr n (n / 10 + 1) (n / 10) (by omega) (by omega)]
    rfl

/-- Decimal rendering of an integer (Python's `str` of an `int`). -/
def intChars (n : Int) : List Char :=
  if n < 0 then '-' :: natChars n.natAbs else natChars n.toNat

/-- JSON string escaping of one character, as `json.dumps` performs it. -/
def escCharL (c : Char) : List Char :=
  if c = '"' then ['\\', '"']
  else if c = '\\' then ['\\', '\\']
  else if c = '\n' then ['\\', 'n']
  else if c = '\t' then ['\\', 't']
  else if c = '\r' then ['\\', 'r']
  else [c]

/-- The escaped body of a JSON string literal. -/
def escBody : List Char → List Char
  | [] => []
  | c :: cs => escCharL c ++ escBody cs

/-- A JSON string literal: quoted, escaped. -/
def encChars (l : List Char) : List Char := '"' :: escBody l ++ ['"']

mutual

/-- Nesting depth of a JSON value; a fuel bound for the parser. -/
def dJ : JsonValue → Nat
  | .arr xs => 1 + dL xs
  | .obj fs => 1 + dF fs
  | .bool _ => 1
  | .str _ => 1
  | .null => 1
  | .num _ => 1

/-- Nesting depth of an array tail. -/
def dL : List JsonValue → Nat
  | [] => 1
  | x :: xs => 1 + max (dJ x) (dL xs)

/-- Nesting depth of an object tail. -/
def dF : List (String × JsonValue) → Nat
  | [] => 1
  | (_, v) :: fs => 1 + max (dJ v) (dF fs)

end

theorem dJ_pos (v : JsonValue) : 1 ≤ dJ v := by
  cases v <;> simp [dJ]

theorem dL_pos (xs : List JsonValue) : 1 ≤ dL xs := by
  cases xs <;> simp [dL]

theorem dF_pos (fs : List (String × JsonValue)) : 1 ≤ dF fs := by
  cases fs with
  | nil => simp [dF]
  | cons f fs => obtain ⟨k, v⟩ := f; simp [dF]

mutual

/-- The characters `json.dumps` produces for a value (default separators). -/
def dumpsChars : JsonValue → List Char
  | .null => "null".data
  | .bool true => "true".data
  | .bool false => "false".data
  | .num n => intChars n
  | .str s => encChars s.data
  | .arr [] => ['[', ']']
  | .arr (x :: xs) => '[' :: (dumpsChars x ++ dumpsArrTail xs ++ [']'])
  | .obj [] => ['{', '}']
  | .obj (f :: fs) => '{' :: (dumpsField f ++ dumpsObjTail fs ++ ['}'])

/-- Second and later array items, each preceded by `", "`. -/
def dumpsArrTail : List JsonValue → List Char
  | [] => []
  | x :: xs => ',' :: ' ' :: (dumpsChars x ++ dumpsArrTail xs)

/-- One object member: `"key": value`. -/
def dumpsField : String × JsonValue → List Char
  | (k, v) => encChars k.data ++ ':' :: ' ' :: dumpsChars v

/-- Second and later object members, each preceded by `", "`. -/
def dumpsObjTail : List (String × JsonValue) → List Char
  | [] => []
  | f :: fs => ',' :: ' ' :: (dumpsField f ++ dumpsObjTail fs)

end

/-- Model of `json.dumps` (default options). -/
def json_dumps (v : JsonValue) : String := String.mk (dumpsChars v)

example : json_dumps (.obj [("type", .str "error"), ("message", .str "Invalid JSON")])
    = "\x7b\"type\": \"error\", \"message\": \"Invalid JSON\"\x7d" := by rfl

example : json_dumps (.arr [.num (-12), .null, .bool true, .obj []])
    = "[-12, null, true, {}]" := by rfl

/-! ## The parser: a model of Python's `json.loads`

A fuel-driven recursive-descent parser over the character list of the input.
It covers the grammar generated by `json_dumps` above (JSON without floats
and without `\uXXXX` escapes); `json.loads` raises `json.JSONDecodeError` on
garbage input, which the model renders as `none`. -/

/-- JSON insignificant whitespace. -/
def isWs (c : Char) : Bool := c = ' ' || c = '\t' || c = '\n' || c = '\r'

/-- Drop leading insignificant whitespace. -/
def skipWs : List Char → List Char
  | [] => []
  | c :: cs => if isWs c then skipWs cs else c :: cs

/-- Is `c` a decimal digit? -/
def isDigitC (c : Char) : Bool := 48 ≤ c.toNat && c.toNat ≤ 57

/-- Numeric value of a decimal digit character. -/
def digitVal (c : Char) : Nat := c.toNat - 48

/-- Accumulate a run of decimal digits left to right. -/
def parseDigits (acc : Nat) : List Char → Nat × List Char
  | [] => (acc, [])
  | c :: cs =>
    if isDigitC c then parseDigits (acc * 10 + digitVal c) cs
    else (acc, c :: cs)

/-- Unescape one character after a backslash in a JSON string literal. -/
def unescChar (c : Char) : Option Char :=
  if c = '"' then some '"'
  else if c = '\\' then some '\\'
  else if c = '/' then some '/'
  else if c = 'n' then some '\n'
  else if c = 't' then some '\t'
  else if c = 'r' then some '\r'
  else if c = 'b' then some (Char.ofNat 8)
  else if c = 'f' then some (Char.ofNat 12)
  else none

/-- Worker for `parseStrChars`; the flag is set right after a backslash. -/
def parseStrLoop : Bool → List Char → Option (List Char × List Char)
  | _, [] => none
  | true, e :: cs =>
    match unescChar e with
    | none => none
    | some u =>
      match parseStrLoop false cs with
      | none => none
      | some (l, r) => some (u :: l, r)
  | false, c :: cs =>
    if c = '"' then some ([], cs)
    else if c = '\\' then parseStrLoop true cs
    else
      match parseStrLoop false cs with
      | none => none
      | some (l, r) => some (c :: l, r)

/-- Parse the body of a JSON string literal (the opening quote already
consumed), up to and including the closing quote. -/
def parseStrChars (cs : List Char) : Option (List Char × List Char) :=
  parseStrLoop false cs

mutual

/-- Parse one JSON value; `fuel` bounds the nesting depth. -/
def parseVal : Nat → List Char → Option (JsonValue × List Char)
  | 0, _ => none
  | fuel + 1, cs =>
    match skipWs cs with
    | [] => none
    | c :: rest =>
      if c = 'n' then
        if rest.take 3 = ['u', 'l', 'l'] then some (.null, rest.drop 3) else none
      else if c = 't' then
        if rest.take 3 = ['r', 'u', 'e'] then some (.bool true, rest.drop 3) else none
      else if c = 'f' then
        if rest.take 4 = ['a', 'l', 's', 'e'] then some (.bool false, rest.drop 4)
        else none
      else if c = '"' then
        match parseStrChars rest with
        | none => none
        | some (l, r) => some (.str (String.mk l), r)
      else if c = '[' then
        match skipWs rest with
        | [] => none
        | d :: rest2 =>
          if d = ']' then some (.arr [], rest2)
          else
            match parseVal fuel (d :: rest2) with
            | none => none
            | some (x, r) =>
              match parseArrTail fuel r with
              | none => none
              | some (xs, r2) => some (.arr (x :: xs), r2)
      else if c = '{' then
        match skipWs rest with
        | [] => none
        | d :: rest2 =>
          if d = '}' then some (.obj [], rest2)
          else if d = '"' then
            match parseStrChars rest2 with
            | none => none
            | some (k, r) =>
              match skipWs r with
              | [] => none
              | e :: r2 =>
                if e = ':' then
                  match parseVal fuel r2 with
                  | none => none
                  | some (v, r3) =>
                    match parseObjTail fuel r3 with
                    | none => none
                    | some (kvs, r4) => some (.obj ((String.mk k, v) :: kvs), r4)
                else none
          else none
      else if c = '-' then
        match rest with
        | [] => none
        | d :: rest2 =>
          if isDigitC d then
            match parseDigits (digitVal d) rest2 with
            | (m, r) => some (.num (-(m : Int)), r)
          else none
      else if isDigitC c then
        match parseDigits (digitVal c) rest with
        | (m, r) => some (.num (m : Int), r)
      else none

/-- Parse the remainder of an array after its first element: a possibly
empty run of `, value` items, then the closing bracket. -/
def parseArrTail : Nat → List Char → Option (List JsonValue × List Char)
  | 0, _ => none
  | fuel + 1, cs =>
    match skipWs cs with
    | [] => none
    | c :: rest =>
      if c = ']' then some ([], rest)
      else if c = ',' then
        match parseVal fuel rest with
        | none => none
        | some (x, r) =>
          match parseArrTail fuel r with
          | none => none
          | some (xs, r2) => some (x :: xs, r2)
      else none

/-- Parse the remainder of an object after its first member: a possibly
empty run of `, "key": value` members, then the closing brace. -/
def parseObjTail : Nat → List Char → Option (List (String × JsonValue) × List Char)
  | 0, _ => none
  | fuel + 1, cs =>
    match skipWs cs with
    | [] => none
    | c :: rest =>
      if c = '}' then some ([], rest)
      else if c = ',' then
        match skipWs rest with
        | [] => none
        | d :: rest2 =>
          if d = '"' then
            match parseStrChars rest2 with
            | none => none
            | some (k, r) =>
              match skipWs r with
              | [] => none
              | e :: r2 =>
                if e = ':' then
                  match parseVal fuel r2 with
                  | none => none
                  | some (v, r3) =>
                    match parseObjTail fuel r3 with
                    | none => none
                    | some (kvs, r4) => some ((String.mk k, v) :: kvs, r4)
                else none
          else none
      else none

end

/-- Model of `json.loads`: parse one value, demand that only whitespace
remains, and fail (`none`, standing for `json.JSONDecodeError`) otherwise. -/
def json_loads (s : String) : Option JsonValue :=
  match parseVal (s.length + 1) s.data with
  | some (v, rest) => if skipWs rest = [] then some v else none
  | none => none

example : json_loads "\x7b\"type\": \"chat\", \"data\": \"hi\"\x7d"
    = some (.obj [("type", .str "chat"), ("data", .str "hi")]) := by rfl

example : json_loads " [1, -20, null, []] "
    = some (.arr [.num 1, .num (-20), .null, .arr []]) := by rfl

example : json_loads "not json" = none := by rfl

example : json_loads "\x7b\"a\": \x7d" = none := by rfl

/-! ## Round-trip: the parser inverts the serializer -/

/-- The continuation after a serialized number must not begin with a digit
(inside serialized arrays and objects it begins with `,`, `]` or `}`). -/
def headNotDigit : List Char → Bool
  | [] => true
  | c :: _ => !isDigitC c

theorem skipWs_cons_false {c : Char} {cs : List Char} (h : isWs c = false) :
    skipWs (c :: cs) = c :: cs := by
  simp [skipWs, h]

theorem isDigitC_digitChar : ∀ d, isDigitC (digitChar d) = true := by
  intro d
  rcases d with _ | _ | _ | _ | _ | _ | _ | _ | _ | d <;> rfl

theorem digitVal_digitChar {d : Nat} (h : d < 10) : digitVal (digitChar d) = d := by
  interval_cases d <;> rfl

theorem isWs_eq_false_of_isDigitC {c : Char} (h : isDigitC c = true) :
    isWs c = false := by
  by_contra hw
  have hw' : isWs c = true := by simpa using hw
  have hc : ((c = ' ' ∨ c = '\t') ∨ c = '\n') ∨ c = '\r' := by
    simpa [isWs] using hw'
  rcases hc with ((rfl | rfl) | rfl) | rfl <;> exact absurd h (by decide)

theorem ne_of_isDigitC {c c' : Char} (h : isDigitC c = true)
    (h' : isDigitC c' = false) : c ≠ c' := by
  rintro rfl
  rw [h] at h'
  exact Bool.true_eq_false.mp h'

theorem natChars_head_digit : ∀ n : Nat, ∃ c ds,
    natChars n = c :: ds ∧ isDigitC c = true := by
  intro n
  induction n using Nat.strong_induction_on with
  | _ n ih =>
      rw [natChars_eq]
      by_cases hn : n < 10
      · exact ⟨digitChar n, [], by simp [hn], isDigitC_digitChar n⟩
      · have hlt : n / 10 < n := Nat.div_lt_self (by omega) (by omega)
        obtain ⟨c, ds, hds, hc⟩ := ih (n / 10) hlt
        exact ⟨c, ds ++ [digitChar (n % 10)], by simp [hn, hds], hc⟩

theorem natChars_all_digits : ∀ n : Nat, ∀ c ∈ natChars n, isDigitC c = true := by
  intro n
  induction n using Nat.strong_induction_on with
  | _ n ih =>
      rw [natChars_eq]
      by_cases hn : n < 10
      · simpa [hn] using isDigitC_digitChar n
      · have hlt : n / 10 < n := Nat.div_lt_self (by omega) (by omega)
        simp only [hn, if_false]
        intro c hc
        rcases List.mem_append.mp hc with h | h
        · exact ih (n / 10) hlt c h
        · rcases List.mem_singleton.mp h with rfl
          exact isDigitC_digitChar (n % 10)

theorem parseDigits_append : ∀ (ds : List Char) (acc : Nat) (cs : List Char),
    (∀ c ∈ ds, isDigitC c = true) → headNotDigit cs = true →
    parseDigits acc (ds ++ cs)
      = (ds.foldl (fun a c => a * 10 + digitVal c) acc, cs) := by
  intro ds
  induction ds with
  | nil =>
      intro acc cs _ hcs
      cases cs with
      | nil => rfl
      | cons c cs' =>
          have hc : isDigitC c = false := by
            simpa [headNotDigit] using hcs
          simp [parseDigits, hc]
  | cons d ds ih =>
      intro acc cs hds hcs
      have hd : isDigitC d = true := hds d (by simp)
      simp only [List.cons_append, parseDigits, hd, if_true, List.foldl_cons]
      exact ih (acc * 10 + digitVal d) cs (fun c hc => hds c (by simp [hc])) hcs

theorem foldl_natChars : ∀ n acc : Nat,
    (natChars n).foldl (fun a c => a * 10 + digitVal c) acc
      = acc * 10 ^ (natChars n).length + n := by
  intro n
  induction n using Nat.strong_induction_on with
  | _ n ih =>
      intro acc
      rw [natChars_eq]
      by_cases hn : n < 10
      · simp [hn, digitVal_digitChar hn]
      · have hlt : n / 10 < n := Nat.div_lt_self (by omega) (by omega)
        simp only [hn, if_false, List.foldl_append, List.foldl_cons, List.foldl_nil,
          List.length_append, List.length_cons, List.length_nil, Nat.zero_add]
        rw [ih (n / 10) hlt acc, digitVal_digitChar (Nat.mod_lt n (by omega)),
          pow_succ, ← mul_assoc]
        generalize acc * 10 ^ (natChars (n / 10)).length = Q
        omega

/-- Parsing the digit run of `natChars n` (its head already consumed into the
accumulator) recovers `n`. -/
theorem parseDigits_natChars {n : Nat} {c : Char} {ds cs : List Char}
    (hsplit : natChars n = c :: ds) (hcs : headNotDigit cs = true) :
    parseDigits (digitVal c) (ds ++ cs) = (n, cs) := by
  have hall : ∀ x ∈ ds, isDigitC x = true := by
    intro x hx
    exact natChars_all_digits n x (by rw [hsplit]; simp [hx])
  rw [parseDigits_append ds (digitVal c) cs hall hcs]
  have h0 : (natChars n).foldl (fun a c => a * 10 + digitVal c) 0
      = 0 * 10 ^ (natChars n).length + n := foldl_natChars n 0
  rw [hsplit] at h0
  simp only [List.foldl_cons, Nat.zero_mul, Nat.zero_add] at h0
  rw [h0]

theorem parseStrChars_escBody : ∀ (l : List Char) (rest : List Char),
    parseStrChars (escBody l ++ '"' :: rest) = some (l, rest) := by
  intro l
  induction l with
  | nil => intro rest; rfl
  | cons c l ih =>
      intro rest
      show parseStrChars ((escCharL c ++ escBody l) ++ '"' :: rest) = some (c :: l, rest)
      have ih' : parseStrLoop false (escBody l ++ '"' :: rest) = some (l, rest) := ih rest
      by_cases h1 : c = '"'
      · subst h1
        simp [escCharL, parseStrChars, parseStrLoop, unescChar, ih']
      · by_cases h2 : c = '\\'
        · subst h2
          simp [escCharL, parseStrChars, parseStrLoop, unescChar, ih']
        · by_cases h3 : c = '\n'
          · subst h3
            simp [escCharL, parseStrChars, parseStrLoop, unescChar, ih']
          · by_cases h4 : c = '\t'
            · subst h4
              simp [escCharL, parseStrChars, parseStrLoop, unescChar, ih']
            · by_cases h5 : c = '\r'
              · subst h5
                simp [escCharL, parseStrChars, parseStrLoop, unescChar, ih']
              · simp only [escCharL, if_neg h1, if_neg h2, if_neg h3, if_neg h4,
                  if_neg h5, List.cons_append, List.nil_append]
                simp [parseStrChars, parseStrLoop, h1, h2, ih']

/-! ### Stepping lemmas: how `parseVal` dispatches on the head character -/

theorem parseVal_null (fuel : Nat) (rest : List Char) :
    parseVal (fuel + 1) ('n' :: 'u' :: 'l' :: 'l' :: rest) = some (.null, rest) := rfl

theorem parseVal_true (fuel : Nat) (rest : List Char) :
    parseVal (fuel + 1) ('t' :: 'r' :: 'u' :: 'e' :: rest)
      = some (.bool true, rest) := rfl

theorem parseVal_false (fuel : Nat) (rest : List Char) :
    parseVal (fuel + 1) ('f' :: 'a' :: 'l' :: 's' :: 'e' :: rest)
      = some (.bool false, rest) := rfl

theorem parseVal_quote (fuel : Nat) (cs : List Char) :
    parseVal (fuel + 1) ('"' :: cs) =
      match parseStrChars cs with
      | none => none
      | some (l, r) => some (.str (String.mk l), r) := rfl

theorem parseVal_lbrack (fuel : Nat) (cs : List Char) :
    parseVal (fuel + 1) ('[' :: cs) =
      match skipWs cs with
      | [] => none
      | d :: rest2 =>
        if d = ']' then some (.arr [], rest2)
        else
          match parseVal fuel (d :: rest2) with
          | none => none
          | some (x, r) =>
            match parseArrTail fuel r with
            | none => none
            | some (xs, r2) => some (.arr (x :: xs), r2) := rfl

theorem parseVal_lbrace (fuel : Nat) (cs : List Char) :
    parseVal (fuel + 1) ('{' :: cs) =
      match skipWs cs with
      | [] => none
      | d :: rest2 =>
        if d = '}' then some (.obj [], rest2)
        else if d = '"' then
          match parseStrChars rest2 with
          | none => none
          | some (k, r) =>
            match skipWs r with
            | [] => none
            | e :: r2 =>
              if e = ':' then
                match parseVal fuel r2 with
                | none => none
                | some (v, r3) =>
                  match parseObjTail fuel r3 with
                  | none => none
                  | some (kvs, r4) => some (.obj ((String.mk k, v) :: kvs), r4)
              else none
        else none := rfl

theorem parseVal_minus (fuel : Nat) (cs : List Char) :
    parseVal (fuel + 1) ('-' :: cs) =
      match cs with
      | [] => none
      | d :: rest2 =>
        if isDigitC d then
          match parseDigits (digitVal d) rest2 with
          | (m, r) => some (.num (-(m : Int)), r)
        else none := rfl

theorem parseArrTail_comma (fuel : Nat) (cs : List Char) :
    parseArrTail (fuel + 1) (',' :: cs) =
      match parseVal fuel cs with
      | none => none
      | some (x, r) =>
        match parseArrTail fuel r with
        | none => none
        | some (xs, r2) => some (x :: xs, r2) := rfl

theorem parseObjTail_comma (fuel : Nat) (cs : List Char) :
    parseObjTail (fuel + 1) (',' :: cs) =
      match skipWs cs with
      | [] => none
      | d :: rest2 =>
        if d = '"' then
          match parseStrChars rest2 with
          | none => none
          | some (k, r) =>
            match skipWs r with
            | [] => none
            | e :: r2 =>
              if e = ':' then
                match parseVal fuel r2 with
                | none => none
                | some (v, r3) =>
                  match parseObjTail fuel r3 with
                  | none => none
                  | some (kvs, r4) => some ((String.mk k, v) :: kvs, r4)
              else none
        else none := rfl

/-- `parseVal` ignores one leading space. -/
theorem parseVal_space (fuel : Nat) (cs : List Char) :
    parseVal fuel (' ' :: cs) = parseVal fuel cs := by
  cases fuel <;> rfl

/-- The digit-head branch of `parseVal`. -/
theorem parseVal_digit (fuel : Nat) {c : Char} (cs : List Char)
    (h : isDigitC c = true) :
    parseVal (fuel + 1) (c :: cs) =
      match parseDigits (digitVal c) cs with
      | (m, r) => some (.num (m : Int), r) := by
  have hws := isWs_eq_false_of_isDigitC h
  have h1 : ¬(c = 'n') := ne_of_isDigitC h (by decide)
  have h2 : ¬(c = 't') := ne_of_isDigitC h (by decide)
  have h3 : ¬(c = 'f') := ne_of_isDigitC h (by decide)
  have h4 : ¬(c = '"') := ne_of_isDigitC h (by decide)
  have h5 : ¬(c = '[') := ne_of_isDigitC h (by decide)
  have h6 : ¬(c = '{') := ne_of_isDigitC h (by decide)
  have h7 : ¬(c = '-') := ne_of_isDigitC h (by decide)
  simp only [parseVal, skipWs_cons_false hws, if_neg h1, if_neg h2, if_neg h3,
    if_neg h4, if_neg h5, if_neg h6, if_neg h7, h, if_true]

/-! ### Head characters of serialized values -/

theorem natChars_ne_nil (n : Nat) : natChars n ≠ [] := by
  obtain ⟨c, ds, heq, _⟩ := natChars_head_digit n
  simp [heq]

theorem dumpsChars_cons : ∀ v : JsonValue, ∃ c cs, dumpsChars v = c :: cs ∧
    isWs c = false ∧ ¬(c = ']') ∧ ¬(c = '}') := by
  intro v
  cases v with
  | null => exact ⟨'n', _, rfl, by decide, by decide, by decide⟩
  | bool b =>
      cases b
      · exact ⟨'f', _, rfl, by decide, by decide, by decide⟩
      · exact ⟨'t', _, rfl, by decide, by decide, by decide⟩
  | num n =>
      by_cases hn : n < 0
      · refine ⟨'-', natChars n.natAbs, ?_, by decide, by decide, by decide⟩
        simp [dumpsChars, intChars, hn]
      · obtain ⟨c, ds, heq, hc⟩ := natChars_head_digit n.toNat
        refine ⟨c, ds, ?_, isWs_eq_false_of_isDigitC hc,
          ne_of_isDigitC hc (by decide), ne_of_isDigitC hc (by decide)⟩
        simp [dumpsChars, intChars, hn, heq]
  | str s => exact ⟨'"', _, rfl, by decide, by decide, by decide⟩
  | arr xs =>
      cases xs
      · exact ⟨'[', _, rfl, by decide, by decide, by decide⟩
      · exact ⟨'[', _, rfl, by decide, by decide, by decide⟩
  | obj fs =>
      cases fs
      · exact ⟨'{', _, rfl, by decide, by decide, by decide⟩
      · exact ⟨'{', _, rfl, by decide, by decide, by decide⟩

/-- Serializer output never begins with whitespace, so leading `skipWs`
leaves it alone. -/
theorem skipWs_dumps (v : JsonValue) (rest : List Char) :
    skipWs (dumpsChars v ++ rest) = dumpsChars v ++ rest := by
  obtain ⟨c, cs, heq, hws, _, _⟩ := dumpsChars_cons v
  rw [heq, List.cons_append, skipWs_cons_false hws]

theorem headNotDigit_arrTail (xs : List JsonValue) (rest : List Char) :
    headNotDigit (dumpsArrTail xs ++ ']' :: rest) = true := by
  cases xs <;> rfl

theorem headNotDigit_objTail (fs : List (String × JsonValue)) (rest : List Char) :
    headNotDigit (dumpsObjTail fs ++ '}' :: rest) = true := by
  cases fs with
  | nil => rfl
  | cons f fs => obtain ⟨k, v⟩ := f; rfl

theorem skipWs_space (cs : List Char) : skipWs (' ' :: cs) = skipWs cs := rfl

theorem stringMk_data (s : String) : String.mk s.data = s := rfl

/-! ### The round-trip theorem -/

theorem parseArrTail_dumps : ∀ xs : List JsonValue,
    (∀ x ∈ xs, ∀ fuel rest, dJ x ≤ fuel → headNotDigit rest = true →
      parseVal fuel (dumpsChars x ++ rest) = some (x, rest)) →
    ∀ fuel rest, dL xs ≤ fuel → headNotDigit rest = true →
    parseArrTail fuel (dumpsArrTail xs ++ ']' :: rest) = some (xs, rest) := by
  intro xs
  induction xs with
  | nil =>
      intro _ fuel rest hfuel _
      cases fuel with
      | zero => exfalso; simp only [dL] at hfuel; omega
      | succ g => rfl
  | cons y ys ih =>
      intro hx fuel rest hfuel hrest
      cases fuel with
      | zero => exfalso; simp only [dL] at hfuel; omega
      | succ g =>
          have hfuel' : 1 + max (dJ y) (dL ys) ≤ g + 1 := by simpa [dL] using hfuel
          have h1 : dJ y ≤ g := by omega
          have h2 : dL ys ≤ g := by omega
          have e1 : parseVal g (dumpsChars y ++ (dumpsArrTail ys ++ ']' :: rest))
              = some (y, dumpsArrTail ys ++ ']' :: rest) :=
            hx y (by simp) g _ h1 (headNotDigit_arrTail ys rest)
          have e2 : parseArrTail g (dumpsArrTail ys ++ ']' :: rest) = some (ys, rest) :=
            ih (fun z hz => hx z (by simp [hz])) g rest h2 hrest
          show parseArrTail (g + 1)
              ((',' :: ' ' :: (dumpsChars y ++ dumpsArrTail ys)) ++ ']' :: rest)
              = some (y :: ys, rest)
          rw [List.cons_append, List.cons_append, parseArrTail_comma, parseVal_space,
            List.append_assoc]
          simp only [e1, e2]

theorem parseObjTail_dumps : ∀ fs : List (String × JsonValue),
    (∀ k v, (k, v) ∈ fs → ∀ fuel rest, dJ v ≤ fuel → headNotDigit rest = true →
      parseVal fuel (dumpsChars v ++ rest) = some (v, rest)) →
    ∀ fuel rest, dF fs ≤ fuel → headNotDigit rest = true →
    parseObjTail fuel (dumpsObjTail fs ++ '}' :: rest) = some (fs, rest) := by
  intro fs
  induction fs with
  | nil =>
      intro _ fuel rest hfuel _
      cases fuel with
      | zero => exfalso; simp only [dF] at hfuel; omega
      | succ g => rfl
  | cons f fs ih =>
      obtain ⟨k, v⟩ := f
      intro hx fuel rest hfuel hrest
      cases fuel with
      | zero => exfalso; simp only [dF] at hfuel; omega
      | succ g =>
          have hfuel' : 1 + max (dJ v) (dF fs) ≤ g + 1 := by simpa [dF] using hfuel
          have h1 : dJ v ≤ g := by omega
          have h2 : dF fs ≤ g := by omega
          have e1 : parseVal g (dumpsChars v ++ (dumpsObjTail fs ++ '}' :: rest))
              = some (v, dumpsObjTail fs ++ '}' :: rest) :=
            hx k v (by simp) g _ h1 (headNotDigit_objTail fs rest)
          have e2 : parseObjTail g (dumpsObjTail fs ++ '}' :: rest) = some (fs, rest) :=
            ih (fun k' v' hv' => hx k' v' (by simp [hv'])) g rest h2 hrest
          show parseObjTail (g + 1)
              ((',' :: ' ' :: ((encChars k.data ++ ':' :: ' ' :: dumpsChars v)
                ++ dumpsObjTail fs)) ++ '}' :: rest)
              = some ((k, v) :: fs, rest)
          rw [List.cons_append, List.cons_append, parseObjTail_comma, skipWs_space,
            List.append_assoc, List.append_assoc]
          rw [show encChars k.data = '"' :: (escBody k.data ++ ['"']) from rfl,
            List.cons_append, skipWs_cons_false (by decide), List.append_assoc,
            List.singleton_append]
          simp only [if_pos rfl, if_true, eq_self_iff_true, parseStrChars_escBody,
            List.cons_append, skipWs_cons_false (show isWs ':' = false from rfl),
            parseVal_space, e1, e2, stringMk_data]

theorem dumpsChars_ne_nil (v : JsonValue) : dumpsChars v ≠ [] := by
  obtain ⟨c, cs, heq, _⟩ := dumpsChars_cons v
  simp [heq]

theorem parseVal_dumps : ∀ v : JsonValue, ∀ fuel rest, dJ v ≤ fuel →
    headNotDigit rest = true →
    parseVal fuel (dumpsChars v ++ rest) = some (v, rest) := by
  intro v
  induction v using JsonValue.indOn with
  | hnull =>
      intro fuel rest hf _
      cases fuel with
      | zero => exfalso; simp only [dJ] at hf; omega
      | succ f => exact parseVal_null f rest
  | hbool b =>
      intro fuel rest hf _
      cases fuel with
      | zero => exfalso; simp only [dJ] at hf; omega
      | succ f =>
          cases b
          · exact parseVal_false f rest
          · exact parseVal_true f rest
  | hnum n =>
      intro fuel rest hf hrest
      cases fuel with
      | zero => exfalso; simp only [dJ] at hf; omega
      | succ f =>
          by_cases hn : n < 0
          · have hdc : dumpsChars (.num n) = '-' :: natChars n.natAbs := by
              simp [dumpsChars, intChars, hn]
            obtain ⟨c, ds, heq, hc⟩ := natChars_head_digit n.natAbs
            rw [hdc, heq, List.cons_append, List.cons_append, parseVal_minus]
            simp only [hc, if_true, parseDigits_natChars heq hrest]
            rw [show -((n.natAbs : Nat) : Int) = n from by omega]
          · have hdc : dumpsChars (.num n) = natChars n.toNat := by
              simp [dumpsChars, intChars, hn]
            obtain ⟨c, ds, heq, hc⟩ := natChars_head_digit n.toNat
            rw [hdc, heq, List.cons_append, parseVal_digit f (ds ++ rest) hc]
            have hval : ((n.toNat : Nat) : Int) = n := by omega
            simp [parseDigits_natChars heq hrest, hval]
  | hstr s =>
      intro fuel rest hf _
      cases fuel with
      | zero => exfalso; simp only [dJ] at hf; omega
      | succ f =>
          show parseVal (f + 1) (('"' :: (escBody s.data ++ ['"'])) ++ rest)
              = some (.str s, rest)
          rw [List.cons_append, parseVal_quote, List.append_assoc,
            List.singleton_append]
          simp [parseStrChars_escBody s.data rest]
  | harr xs hmem =>
      intro fuel rest hf hrest
      cases xs with
      | nil =>
          cases fuel with
          | zero => exfalso; simp only [dJ, dL] at hf; omega
          | succ f =>
              show parseVal (f + 1) ('[' :: ']' :: rest) = some (.arr [], rest)
              rfl
      | cons x xs =>
          cases fuel with
          | zero => exfalso; simp only [dJ] at hf; omega
          | succ f =>
              have hfuel' : 1 + (1 + max (dJ x) (dL xs)) ≤ f + 1 := by
                simpa [dJ, dL] using hf
              have h1 : dJ x ≤ f := by omega
              have h2 : dL xs ≤ f := by omega
              obtain ⟨c, cs, heq, hws, hne, _⟩ := dumpsChars_cons x
              have e1 : parseVal f (c :: (cs ++ (dumpsArrTail xs ++ ']' :: rest)))
                  = some (x, dumpsArrTail xs ++ ']' :: rest) := by
                rw [← List.cons_append, ← heq]
                exact hmem x (by simp) f _ h1 (headNotDigit_arrTail xs rest)
              have e2 : parseArrTail f (dumpsArrTail xs ++ ']' :: rest)
                  = some (xs, rest) :=
                parseArrTail_dumps xs (fun z hz => hmem z (by simp [hz])) f rest h2 hrest
              show parseVal (f + 1)
                  (('[' :: (dumpsChars x ++ dumpsArrTail xs ++ [']'])) ++ rest)
                  = some (.arr (x :: xs), rest)
              rw [List.cons_append, parseVal_lbrack, List.append_assoc,
                List.append_assoc, List.singleton_append, skipWs_dumps, heq,
                List.cons_append]
              simp only [hne, if_false, e1, e2]
  | hobj fs hmem =>
      intro fuel rest hf hrest
      cases fs with
      | nil =>
          cases fuel with
          | zero => exfalso; simp only [dJ, dF] at hf; omega
          | succ f =>
              show parseVal (f + 1) ('{' :: '}' :: rest) = some (.obj [], rest)
              rfl
      | cons f0 fs =>
          obtain ⟨k, v⟩ := f0
          cases fuel with
          | zero => exfalso; simp only [dJ] at hf; omega
          | succ f =>
              have hfuel' : 1 + (1 + max (dJ v) (dF fs)) ≤ f + 1 := by
                simpa [dJ, dF] using hf
              have h1 : dJ v ≤ f := by omega
              have h2 : dF fs ≤ f := by omega
              have e1 : parseVal f (dumpsChars v ++ (dumpsObjTail fs ++ '}' :: rest))
                  = some (v, dumpsObjTail fs ++ '}' :: rest) :=
                hmem k v (by simp) f _ h1 (headNotDigit_objTail fs rest)
              have e2 : parseObjTail f (dumpsObjTail fs ++ '}' :: rest)
                  = some (fs, rest) :=
                parseObjTail_dumps fs (fun k' v' hv' => hmem k' v' (by simp [hv']))
                  f rest h2 hrest
              show parseVal (f + 1)
                  (('{' :: ((encChars k.data ++ ':' :: ' ' :: dumpsChars v)
                    ++ dumpsObjTail fs ++ ['}'])) ++ rest)
                  = some (.obj ((k, v) :: fs), rest)
              rw [List.cons_append, parseVal_lbrace, List.append_assoc,
                List.append_assoc, List.append_assoc, List.singleton_append]
              rw [show encChars k.data = '"' :: (escBody k.data ++ ['"']) from rfl,
                List.cons_append, skipWs_cons_false (by decide), List.append_assoc,
                List.singleton_append]
              simp only [if_neg (show ¬('"' = '}') from by decide), if_pos rfl,
                if_true, eq_self_iff_true, parseStrChars_escBody, List.cons_append,
                skipWs_cons_false (show isWs ':' = false from rfl), parseVal_space,
                e1, e2, stringMk_data]

theorem dL_le_length : ∀ xs : List JsonValue,
    (∀ x ∈ xs, dJ x ≤ (dumpsChars x).length) →
    dL xs ≤ (dumpsArrTail xs).length + 1 := by
  intro xs
  induction xs with
  | nil => intro _; simp [dL, dumpsArrTail]
  | cons x xs ih =>
      intro hx
      have h1 : dJ x ≤ (dumpsChars x).length := hx x (by simp)
      have h2 : dL xs ≤ (dumpsArrTail xs).length + 1 :=
        ih (fun z hz => hx z (by simp [hz]))
      simp only [dL, dumpsArrTail, List.length_cons, List.length_append]
      omega

theorem dF_le_length : ∀ fs : List (String × JsonValue),
    (∀ k v, (k, v) ∈ fs → dJ v ≤ (dumpsChars v).length) →
    dF fs ≤ (dumpsObjTail fs).length + 1 := by
  intro fs
  induction fs with
  | nil => intro _; simp [dF, dumpsObjTail]
  | cons f fs ih =>
      obtain ⟨k, v⟩ := f
      intro hx
      have h1 : dJ v ≤ (dumpsChars v).length := hx k v (by simp)
      have h2 : dF fs ≤ (dumpsObjTail fs).length + 1 :=
        ih (fun k' v' hv' => hx k' v' (by simp [hv']))
      simp only [dF, dumpsObjTail, dumpsField, encChars, List.length_cons,
        List.length_append]
      omega

/-- The parser fuel `length + 1` used by `json_loads` always suffices. -/
theorem dJ_le_length : ∀ v : JsonValue, dJ v ≤ (dumpsChars v).length := by
  intro v
  induction v using JsonValue.indOn with
  | hnull => simp [dJ, dumpsChars]
  | hbool b => cases b <;> simp [dJ, dumpsChars]
  | hnum n =>
      simp only [dJ]
      exact List.length_pos.mpr (dumpsChars_ne_nil (.num n))
  | hstr s => simp [dJ, dumpsChars, encChars]
  | harr xs hmem =>
      cases xs with
      | nil => simp [dJ, dL, dumpsChars]
      | cons x xs =>
          have h1 : dJ x ≤ (dumpsChars x).length := hmem x (by simp)
          have h2 : dL xs ≤ (dumpsArrTail xs).length + 1 :=
            dL_le_length xs (fun z hz => hmem z (by simp [hz]))
          have h3 : 1 ≤ (dumpsChars x).length :=
            List.length_pos.mpr (dumpsChars_ne_nil x)
          simp only [dJ, dL, dumpsChars, List.length_cons, List.length_append,
            List.length_singleton]
          omega
  | hobj fs hmem =>
      cases fs with
      | nil => simp [dJ, dF, dumpsChars]
      | cons f fs =>
          obtain ⟨k, v⟩ := f
          have h1 : dJ v ≤ (dumpsChars v).length := hmem k v (by simp)
          have h2 : dF fs ≤ (dumpsObjTail fs).length + 1 :=
            dF_le_length fs (fun k' v' hv' => hmem k' v' (by simp [hv']))
          simp only [dJ, dF, dumpsChars, dumpsField, encChars, List.length_cons,
            List.length_append, List.length_singleton]
          omega

/-- Round-trip: decoding a serialized JSON value reproduces it. -/
theorem json_roundtrip (v : JsonValue) : json_loads (json_dumps v) = some v := by
  have hlen : dJ v ≤ (json_dumps v).length + 1 := by
    have h := dJ_le_length v
    have hle : (json_dumps v).length = (dumpsChars v).length := rfl
    omega
  have h := parseVal_dumps v ((json_dumps v).length + 1) [] hlen rfl
  rw [List.append_nil] at h
  unfold json_loads
  have hd : (json_dumps v).data = dumpsChars v := rfl
  rw [hd, h]
  rfl

example : json_loads (json_dumps (.obj [("a", .arr [.num (-7), .str "x\n"])]))
    = some (.obj [("a", .arr [.num (-7), .str "x\n"])]) := json_roundtrip _

/-! ## Python-semantics helpers -/

/-- Python truthiness of a JSON-shaped value (`if webrtc_id:`):
`None`, `False`, `0`, `""`, `[]` and `{}` are falsy. -/
def pyTruthy : JsonValue → Bool
  | .null => false
  | .bool b => b
  | .num n => n ≠ 0
  | .str s => s ≠ ""
  | .arr xs => xs ≠ []
  | .obj fs => fs ≠ []

/-- Whether a JSON-shaped value is hashable in Python (usable as a `dict`
key or for a `dict` membership test); lists and dicts raise `TypeError`. -/
def pyHashable : JsonValue → Bool
  | .arr _ => false
  | .obj _ => false
  | _ => true

/-- Python `dict.get(key, default)` on a parsed JSON object's field list. -/
def objGetD (fs : List (String × JsonValue)) (k : String) (d : JsonValue) :
    JsonValue :=
  match fs.find? (fun p => p.1 = k) with
  | some p => p.2
  | none => d

/-- One character of a Python `repr` string literal (single-quoted). -/
def pyEscChar (c : Char) : List Char :=
  if c = '\\' then ['\\', '\\']
  else if c = Char.ofNat 39 then ['\\', Char.ofNat 39]
  else [c]

/-- Escaped body of a Python `repr` string literal. -/
def pyEscBody : List Char → List Char
  | [] => []
  | c :: cs => pyEscChar c ++ pyEscBody cs

/-- A single-quoted Python `repr` string literal. -/
def pyQuote (l : List Char) : List Char :=
  Char.ofNat 39 :: (pyEscBody l ++ [Char.ofNat 39])

mutual

/-- Python `repr` of a JSON-shaped value (as of values parsed from JSON:
`None`, `True`, `1`, `'s'`, lists, dicts). -/
def pyReprChars : JsonValue → List Char
  | .null => "None".data
  | .bool true => "True".data
  | .bool false => "False".data
  | .num n => intChars n
  | .str s => pyQuote s.data
  | .arr [] => ['[', ']']
  | .arr (x :: xs) => '[' :: (pyReprChars x ++ pyReprArrTail xs ++ [']'])
  | .obj [] => ['{', '}']
  | .obj (f :: fs) => '{' :: (pyReprField f ++ pyReprObjTail fs ++ ['}'])

/-- Second and later list items of a Python `repr`. -/
def pyReprArrTail : List JsonValue → List Char
  | [] => []
  | x :: xs => ',' :: ' ' :: (pyReprChars x ++ pyReprArrTail xs)

/-- One dict member of a Python `repr`. -/
def pyReprField : String × JsonValue → List Char
  | (k, v) => pyQuote k.data ++ ':' :: ' ' :: pyReprChars v

/-- Second and later dict members of a Python `repr`. -/
def pyReprObjTail : List (String × JsonValue) → List Char
  | [] => []
  | f :: fs => ',' :: ' ' :: (pyReprField f ++ pyReprObjTail fs)

end

/-- Python `str()` of a JSON-shaped value, as used by the f-string
`f"Echo: {msg_data.get('data', 'No data')}"`: a string passes through,
anything else renders as its `repr`. -/
def pyStr : JsonValue → String
  | .str s => s
  | v => String.mk (pyReprChars v)

/-! ## Dictionaries

The server's `connections` and `data_channels` are Python dicts keyed by the
request-supplied `webrtc_id` (any hashable value).  They are modelled as
association lists with Python `dict` semantics: insertion overwrites in
place, deletion removes the key's entry. -/

/-- `key in d`. -/
def dictContains {α : Type} (m : List (JsonValue × α)) (k : JsonValue) : Bool :=
  m.any fun p => p.1 = k

/-- `d.get(key)` / `d[key]` lookup. -/
def dictGet? {α : Type} (m : List (JsonValue × α)) (k : JsonValue) : Option α :=
  (m.find? fun p => p.1 = k).map Prod.snd

/-- `d[key] = v`: overwrite in place, else append. -/
def dictInsert {α : Type} (m : List (JsonValue × α)) (k : JsonValue) (v : α) :
    List (JsonValue × α) :=
  if dictContains m k then m.map fun p => if p.1 = k then (k, v) else p
  else m ++ [(k, v)]

/-- `del d[key]`. -/
def dictRemove {α : Type} (m : List (JsonValue × α)) (k : JsonValue) :
    List (JsonValue × α) :=
  m.filter fun p => ¬(p.1 = k)

theorem dictContains_remove_self {α : Type} (m : List (JsonValue × α))
    (k : JsonValue) : dictContains (dictRemove m k) k = false := by
  simp [dictContains, dictRemove, List.any_eq_true]

theorem dictGet?_insert_self {α : Type} (m : List (JsonValue × α))
    (k : JsonValue) (v : α) : dictGet? (dictInsert m k v) k = some v := by
  unfold dictInsert
  by_cases h : dictContains m k
  · simp only [h, if_true]
    unfold dictContains at h
    induction m with
    | nil => simp at h
    | cons p m ih =>
        by_cases hp : p.1 = k
        · simp [dictGet?, List.find?, hp]
        · simp only [List.any_cons, Bool.or_eq_true, decide_eq_true_eq] at h
          rcases h with h | h
          · exact absurd h hp
          · simp only [List.map_cons, if_neg hp]
            simp only [dictGet?, List.find?] at ih ⊢
            rw [show (decide (p.1 = k)) = false from by simp [hp]]
            exact ih h
  · simp only [h, if_false]
    unfold dictContains at h
    induction m with
    | nil => simp [dictGet?, List.find?]
    | cons p m ih =>
        simp only [List.any_cons, Bool.or_eq_true, decide_eq_true_eq] at h
        push_neg at h
        simp only [List.cons_append, dictGet?, List.find?] at ih ⊢
        rw [show (decide (p.1 = k)) = false from by simp [h.1]]
        exact ih h.2

theorem dictContains_insert_self {α : Type} (m : List (JsonValue × α))
    (k : JsonValue) (v : α) : dictContains (dictInsert m k v) k = true := by
  have h := dictGet?_insert_self m k v
  unfold dictGet? at h
  rcases hf : (dictInsert m k v).find? (fun p => p.1 = k) with _ | p
  · rw [hf] at h; simp at h
  · have hmem := List.mem_of_find?_eq_some hf
    have hpk := List.find?_some hf
    unfold dictContains
    rw [List.any_eq_true]
    exact ⟨p, hmem, hpk⟩

theorem dictGet?_eq_none_of_not_contains {α : Type} (m : List (JsonValue × α))
    (k : JsonValue) (h : dictContains m k = false) : dictGet? m k = none := by
  unfold dictContains at h
  unfold dictGet?
  rw [Option.map_eq_none', List.find?_eq_none]
  intro p hp
  have := List.any_eq_false.mp h p hp
  simpa using this

theorem dictInsert_length_ge {α : Type} (m : List (JsonValue × α))
    (k : JsonValue) (v : α) : m.length ≤ (dictInsert m k v).length := by
  unfold dictInsert
  by_cases h : dictContains m k
  · simp [h]
  · simp [h]

theorem dictContains_insert_of_contains {α : Type} (m : List (JsonValue × α))
    (k j : JsonValue) (v : α) (h : dictContains m j = true) :
    dictContains (dictInsert m k v) j = true := by
  unfold dictContains at h ⊢
  rw [List.any_eq_true] at h ⊢
  obtain ⟨p, hp, hpj⟩ := h
  unfold dictInsert
  by_cases hc : dictContains m k
  · simp only [hc, if_true]
    by_cases hpk : p.1 = k
    · refine ⟨(k, v), List.mem_map.mpr ⟨p, hp, by simp [hpk]⟩, ?_⟩
      simp only [decide_eq_true_eq] at hpj ⊢
      rw [← hpj, hpk]
    · exact ⟨p, List.mem_map.mpr ⟨p, hp, by simp [hpk]⟩, hpj⟩
  · simp only [hc, if_false]
    exact ⟨p, List.mem_append_left _ hp, hpj⟩

theorem forall_keys_ne_of_not_contains {α : Type} (m : List (JsonValue × α))
    (k : JsonValue) (h : dictContains m k = false) : ∀ p ∈ m, ¬(p.1 = k) := by
  intro p hp
  have := List.any_eq_false.mp h p hp
  simpa using this

/-! ## `ChannelGuard`: the `safe_channel_send` guard

Embedding of `safe_channel_send` (`webrtc_test_server.py` lines 84-118).
Effects are explicit: the result records the returned boolean, every text
handed to the channel's `send` primitive, and the log lines emitted.  A
raising `send` is a handle whose `sendOk` is `false` on the serialized text;
the guard catches the exception, so its result type has no error branch. -/

/-- Levels of the log lines the scripts emit. -/
inductive LogLevel where
  | info : LogLevel
  | warning : LogLevel
  | error : LogLevel
deriving DecidableEq, Repr

/-- Outcome of one `safe_channel_send` call. -/
structure SendResult where
  ok : Bool
  transmitted : List String
  logs : List LogLevel
deriving DecidableEq, Repr

/-- A DataChannel handle as the server sees it: `readyState = none` models an
object without that attribute; `sendOk t` tells whether the transmit
primitive succeeds (`true`) or raises (`false`) on the text `t`. -/
structure ChannelHandle where
  readyState : Option String
  sendOk : String → Bool

/-- The serialization step of `safe_channel_send` (lines 110-113): a string
payload is passed through unchanged, anything else is JSON-encoded. -/
def serializePayload : JsonValue → String
  | .str s => s
  | v => json_dumps v

/-- `safe_channel_send(channel, message_data, ...)` (lines 84-118).
`none` stands for a `None` (falsy) channel argument. -/
def safe_channel_send (channel : Option ChannelHandle) (message_data : JsonValue) :
    SendResult :=
  match channel with
  | none => ⟨false, [], [.warning]⟩
  | some ch =>
    match ch.readyState with
    | none => ⟨false, [], [.warning]⟩
    | some state =>
      if state ≠ "open" then ⟨false, [], [.warning]⟩
      else
        let text := serializePayload message_data
        if ch.sendOk text then ⟨true, [text], [.info]⟩
        else ⟨false, [text], [.error]⟩

/-! ## The server: state, HTTP handlers and channel callbacks -/

/-- A peer-connection handle registered in `connections` (the claims only
count and look up these; its negotiation behaviour lives in `OfferEnv`). -/
inductive PeerConn where
  | real : PeerConn
  | mock : PeerConn
deriving DecidableEq, Repr

/-- The mutable state of `WebRTCTestServer`: the two dicts of lines 122-123,
keyed by the request-supplied `webrtc_id`. -/
structure ServerState where
  connections : List (JsonValue × PeerConn)
  data_channels : List (JsonValue × ChannelHandle)

/-- An HTTP response; every handler serializes a JSON body. -/
structure HttpResponse where
  status : Nat
  body : JsonValue
deriving DecidableEq, Repr

/-- The environment of one offer request: the freshly drawn
`str(uuid.uuid4())` default id, whether the aiortc negotiation calls
(`setRemoteDescription` / `createAnswer` / `setLocalDescription`) succeed,
and the answer they produce. -/
structure OfferEnv where
  freshId : String
  negotiationOk : Bool
  answerType : String
  answerSdp : String

/-- An offer request: `none` models a body on which `request.json()`
raises. -/
structure OfferRequest where
  body : Option JsonValue

/-- `handle_webrtc_offer` (lines 178-306).  The peer connection is stored in
`connections` (line 198) *before* negotiation, so the entry stays behind
even when a later step raises and the handler answers 500.  When aiortc is
unavailable, the decorator expression on line 201 evaluates to `lambda: None`
and applying it to `on_datachannel` raises `TypeError` (zero-argument lambda
called with one argument), which the `except` turns into a 500 — after the
insertion. -/
def handle_webrtc_offer (st : ServerState) (req : OfferRequest) (env : OfferEnv)
    (aiortc : Bool) : ServerState × HttpResponse :=
  match req.body with
  | none => (st, ⟨500, .obj [("error", .str "invalid request body")]⟩)
  | some data =>
    match data with
    | .obj fs =>
      let webrtc_id := objGetD fs "webrtc_id" (.str env.freshId)
      if pyHashable webrtc_id then
        let st1 := { st with
          connections := dictInsert st.connections webrtc_id
            (if aiortc then .real else .mock) }
        if aiortc then
          if env.negotiationOk then
            (st1, ⟨200, .obj [("type", .str env.answerType),
              ("sdp", .str env.answerSdp)]⟩)
          else (st1, ⟨500, .obj [("error", .str "negotiation failed")]⟩)
        else (st1, ⟨500, .obj [("error", .str "TypeError")]⟩)
      else (st, ⟨500, .obj [("error", .str "unhashable type")]⟩)
    | _ => (st, ⟨500, .obj [("error", .str "AttributeError")]⟩)

/-- The `on_datachannel` callback (lines 201-204): store the handle —
overwriting any previous one for the same session — and log one *info*
line (`"📺 DataChannel established"`); no warning is emitted. -/
def on_datachannel (st : ServerState) (webrtc_id : JsonValue)
    (channel : ChannelHandle) : ServerState × List LogLevel :=
  ({ st with data_channels := dictInsert st.data_channels webrtc_id channel },
   [LogLevel.info])

/-- The `on_open` callback (lines 206-214): push the welcome payload through
the guard; the registry is untouched. -/
def on_open (channel : ChannelHandle) : JsonValue × SendResult :=
  let payload : JsonValue := .obj [("type", .str "server_ready"),
    ("message", .str "DataChannel connection established!")]
  (payload, safe_channel_send (some channel) payload)

/-- What one run of the `on_message` callback did: each payload passed to
`safe_channel_send` with the guard's outcome, plus the handler's own log
lines. -/
structure HandlerResult where
  sends : List (JsonValue × SendResult)
  logs : List LogLevel
deriving Repr

/-- The error payload answered to a malformed inbound message (line 264). -/
def invalidJsonPayload : JsonValue :=
  .obj [("type", .str "error"), ("message", .str "Invalid JSON")]

/-- The `on_message` callback (lines 216-266).  Only `json.JSONDecodeError`
is caught; a message that parses to a non-dict raises `AttributeError` at
`msg_data.get` (uncaught, the `Except.error` branch), as does the `test`
branch's direct `channel.readyState` access on a handle without the
attribute.  `freshId` is the `str(uuid.uuid4())` drawn for a chat response
without an id, `ts` the `datetime.now().isoformat()` timestamp. -/
def on_message (channel : ChannelHandle) (message : String) (freshId ts : String) :
    Except String HandlerResult :=
  match json_loads message with
  | none =>
    Except.ok ⟨[(invalidJsonPayload, safe_channel_send (some channel) invalidJsonPayload)],
      [.info, .warning]⟩
  | some msg_data =>
    match msg_data with
    | .obj fs =>
      let t := objGetD fs "type" .null
      if t = .str "chat" then
        let response : JsonValue := .obj [("type", .str "chat_response"),
          ("id", objGetD fs "id" (.str freshId)),
          ("message", .str ("Echo: " ++ pyStr (objGetD fs "data" (.str "No data"))))]
        Except.ok ⟨[(response, safe_channel_send (some channel) response)], [.info]⟩
      else if t = .str "stop_chat" then
        let response : JsonValue := .obj [("type", .str "chat_stopped"),
          ("message", .str "Chat stopped")]
        Except.ok ⟨[(response, safe_channel_send (some channel) response)], [.info]⟩
      else if t = .str "test" then
        match channel.readyState with
        | none => Except.error "AttributeError: readyState"
        | some state =>
          let response : JsonValue := .obj [("type", .str "test_response"),
            ("message", .str "DataChannel state checking is working!"),
            ("channel_state", .str state), ("timestamp", .str ts)]
          Except.ok ⟨[(response, safe_channel_send (some channel) response)], [.info]⟩
      else
        let response : JsonValue := .obj [("type", .str "echo"), ("original", msg_data)]
        Except.ok ⟨[(response, safe_channel_send (some channel) response)], [.info]⟩
    | _ => Except.error "AttributeError: get"

/-- The `on_close` callback (lines 268-272): delete the channel binding if
present — removal of a missing id is a no-op by the explicit guard.  Only
`data_channels` is touched; `connections` never loses entries. -/
def on_close (st : ServerState) (webrtc_id : JsonValue) : ServerState :=
  if dictContains st.data_channels webrtc_id then
    { st with data_channels := dictRemove st.data_channels webrtc_id }
  else st

/-- A `/test` request: its content type, and its parsed JSON body (`none`
models a body on which `request.json()` raises). -/
structure TestRequest where
  content_type : String
  body : Option JsonValue

/-- One entry of the `/test` results list (lines 325-329 / 338-342):
`getattr(channel, 'readyState', 'unknown')` supplies the state. -/
def testEntry (wid : JsonValue) (ch : ChannelHandle) (payload : JsonValue) :
    JsonValue :=
  .obj [("webrtc_id", wid),
    ("success", .bool (safe_channel_send (some ch) payload).ok),
    ("channel_state", .str (ch.readyState.getD "unknown"))]

/-- The 200 response body of `/test` (lines 344-351). -/
def testResponseBody (results : List JsonValue) (total : Nat) (ts : String) :
    JsonValue :=
  .obj [("test_results", .arr results), ("total_channels", .num total),
    ("timestamp", .str ts)]

/-- The guarded body of `handle_datachannel_test` once `data` is known to
be a dict with fields `fs` (lines 312-351).  The guard on line 317 is
`webrtc_id and webrtc_id in self.data_channels` — short-circuit: a falsy id
skips the membership test; an unhashable id raises `TypeError` inside the
`try`, answered 500.  A known id exercises that one channel; *everything
else falls to the broadcast branch over all registered channels*. -/
def testCore (st : ServerState) (fs : List (String × JsonValue)) (ts : String) :
    HttpResponse :=
  let webrtc_id := objGetD fs "webrtc_id" .null
  let test_message := objGetD fs "message" (.str "Test message from server")
  if pyTruthy webrtc_id then
    if pyHashable webrtc_id then
      match dictGet? st.data_channels webrtc_id with
      | some channel =>
        ⟨200, testResponseBody
          [testEntry webrtc_id channel
            (.obj [("type", .str "server_test"), ("message", test_message)])]
          st.data_channels.length ts⟩
      | none =>
        ⟨200, testResponseBody
          (st.data_channels.map fun p => testEntry p.1 p.2
            (.obj [("type", .str "broadcast_test"), ("message", test_message)]))
          st.data_channels.length ts⟩
    else ⟨500, .obj [("error", .str "unhashable type")]⟩
  else
    ⟨200, testResponseBody
      (st.data_channels.map fun p => testEntry p.1 p.2
        (.obj [("type", .str "broadcast_test"), ("message", test_message)]))
      st.data_channels.length ts⟩

/-- `handle_datachannel_test` (lines 308-359).  A non-JSON content type
means `data = {}` (line 311); a JSON content type with an unparseable body
raises in `request.json()`, answered 500; a non-dict body raises
`AttributeError` at `data.get`, answered 500. -/
def handle_datachannel_test (st : ServerState) (req : TestRequest) (ts : String) :
    HttpResponse :=
  match (if req.content_type = "application/json" then req.body
         else some (.obj [])) with
  | none => ⟨500, .obj [("error", .str "invalid request body")]⟩
  | some data =>
    match data with
    | .obj fs => testCore st fs ts
    | _ => ⟨500, .obj [("error", .str "AttributeError")]⟩

/-- `handle_status` (lines 361-377). -/
def handle_status (st : ServerState) (aiortc : Bool) (ts : String) : HttpResponse :=
  ⟨200, .obj [("server", .str "WebRTC Test Server"), ("status", .str "running"),
    ("connections", .num st.connections.length),
    ("data_channels", .num st.data_channels.length),
    ("aiortc_available", .bool aiortc),
    ("datachannel_fixes", .str "enabled"),
    ("active_sessions", .arr (st.data_channels.map Prod.fst)),
    ("timestamp", .str ts)]⟩

/-- One externally triggered server event, with every nondeterministic input
made explicit. -/
inductive ServerOp where
  | offer (req : OfferRequest) (env : OfferEnv) (aiortc : Bool) : ServerOp
  | datachannel (webrtc_id : JsonValue) (channel : ChannelHandle) : ServerOp
  | channelOpen (channel : ChannelHandle) : ServerOp
  | channelMessage (channel : ChannelHandle) (message freshId ts : String) : ServerOp
  | channelClose (webrtc_id : JsonValue) : ServerOp
  | testRequest (req : TestRequest) (ts : String) : ServerOp
  | statusRequest (aiortc : Bool) (ts : String) : ServerOp

/-- The server's state transition per event.  `on_open`, `on_message`,
`/test` and `/status` read but never mutate the registries. -/
def step (st : ServerState) : ServerOp → ServerState
  | .offer req env aiortc => (handle_webrtc_offer st req env aiortc).1
  | .datachannel wid ch => (on_datachannel st wid ch).1
  | .channelOpen _ => st
  | .channelMessage _ _ _ _ => st
  | .channelClose wid => on_close st wid
  | .testRequest _ _ => st
  | .statusRequest _ _ => st

/-! ## The diagnostic client (`debug_webrtc_connection.py`) -/

/-- The four probes of `diagnose_webrtc_issues` (lines 143-165). -/
inductive Probe where
  | connectivity : Probe
  | config : Probe
  | offer : Probe
  | commonIssues : Probe
deriving DecidableEq, Repr

/-- Network outcomes of one diagnostic run: whether `GET /` answers 200,
what `test_config_endpoint` returns (`none` on a non-200 answer or a raised
exception), and whether the offer probe passes. -/
structure DiagEnv where
  connectivityOk : Bool
  configResult : Option JsonValue
  offerOk : Bool

/-- `diagnose_webrtc_issues` (lines 143-165), as the list of probes it
executes plus its own error log lines.  A failed connectivity probe
*returns early* (line 150); a missing or falsy config *returns early*
(line 156); a failed offer probe is only logged and `check_common_issues`
still runs. -/
def diagnose_webrtc_issues (env : DiagEnv) : List Probe × List LogLevel :=
  if ¬ env.connectivityOk then ([.connectivity], [.error])
  else
    match env.configResult with
    | none => ([.connectivity, .config], [.error])
    | some config =>
      if ¬ pyTruthy config then ([.connectivity, .config], [.error])
      else
        ([.connectivity, .config, .offer, .commonIssues],
         if env.offerOk then [] else [.error])

/-! ## The claims -/

/-- Claim C1. For every channel handle that is absent, or lacks a `readyState`
attribute, or whose `readyState` is not `"open"`, and for every payload,
`safe_channel_send` returns `false`, never invokes the handle's transmit
primitive, and logs one warning. -/
theorem claim_C1 :
    (∀ p : JsonValue, safe_channel_send none p
      = ⟨false, [], [.warning]⟩)
    ∧ (∀ (h : ChannelHandle) (p : JsonValue), h.readyState = none →
        safe_channel_send (some h) p = ⟨false, [], [.warning]⟩)
    ∧ (∀ (h : ChannelHandle) (p : JsonValue) (s : String),
        h.readyState = some s → s ≠ "open" →
        safe_channel_send (some h) p = ⟨false, [], [.warning]⟩) := by
  refine ⟨fun p => rfl, fun h p hr => ?_, fun h p s hr hs => ?_⟩
  · simp [safe_channel_send, hr]
  · simp only [safe_channel_send, hr]
    rw [if_pos hs]

theorem claim_C1_witness :
    safe_channel_send (some ⟨some "connecting", fun _ => true⟩) (.str "hi")
      = ⟨false, [], [.warning]⟩ :=
  claim_C1.2.2 ⟨some "connecting", fun _ => true⟩ (.str "hi") "connecting" rfl
    (by decide)

/-- Claim C2. When the handle is open but its transmit primitive raises,
`safe_channel_send` catches the exception, logs it (one error line) and
returns `false` — it is a total function into `SendResult`, so no exception
ever reaches its caller. -/
theorem claim_C2 : ∀ (h : ChannelHandle) (p : JsonValue),
    h.readyState = some "open" → h.sendOk (serializePayload p) = false →
    safe_channel_send (some h) p
      = ⟨false, [serializePayload p], [.error]⟩ := by
  intro h p hr hs
  simp [safe_channel_send, hr, hs]

theorem claim_C2_witness :
    safe_channel_send (some ⟨some "open", fun _ => false⟩)
      (.obj [("type", .str "chat"), ("data", .str "hi")])
      = ⟨false, ["\x7b\"type\": \"chat\", \"data\": \"hi\"\x7d"], [.error]⟩ :=
  claim_C2 ⟨some "open", fun _ => false⟩
    (.obj [("type", .str "chat"), ("data", .str "hi")]) rfl rfl

/-- Claim C3. On an open handle whose transmit succeeds, `safe_channel_send`
returns `true` and transmits exactly the deterministic serialization of the
payload: a string payload passes through unchanged, a non-string payload is
JSON-encoded, and decoding that text reproduces the payload (round-trip). -/
theorem claim_C3 : ∀ (h : ChannelHandle) (p : JsonValue),
    h.readyState = some "open" → h.sendOk (serializePayload p) = true →
    safe_channel_send (some h) p = ⟨true, [serializePayload p], [.info]⟩
    ∧ (∀ s, p = .str s → serializePayload p = s)
    ∧ ((∀ s, p ≠ .str s) → serializePayload p = json_dumps p)
    ∧ json_loads (json_dumps p) = some p := by
  intro h p hr hs
  refine ⟨?_, ?_, ?_, json_roundtrip p⟩
  · simp [safe_channel_send, hr, hs]
  · rintro s rfl
    rfl
  · intro hns
    cases p with
    | str s => exact absurd rfl (hns s)
    | null => rfl
    | bool b => rfl
    | num n => rfl
    | arr xs => rfl
    | obj fs => rfl

theorem claim_C3_witness :
    safe_channel_send (some ⟨some "open", fun _ => true⟩)
        (.obj [("type", .str "chat"), ("data", .str "hi")])
      = ⟨true, ["\x7b\"type\": \"chat\", \"data\": \"hi\"\x7d"], [.info]⟩
    ∧ json_loads "\x7b\"type\": \"chat\", \"data\": \"hi\"\x7d"
      = some (.obj [("type", .str "chat"), ("data", .str "hi")]) := by
  have h := claim_C3 ⟨some "open", fun _ => true⟩
    (.obj [("type", .str "chat"), ("data", .str "hi")]) rfl rfl
  exact ⟨h.1, h.2.2.2⟩

/-- Claim C4. Removing a session's channel binding is idempotent: a second
`on_close` for the same id leaves the state unchanged, and closing an id
that is not registered is a no-op rather than an error. -/
theorem claim_C4 : ∀ (st : ServerState) (id : JsonValue),
    on_close (on_close st id) id = on_close st id
    ∧ (dictContains st.data_channels id = false → on_close st id = st) := by
  intro st id
  constructor
  · by_cases h : dictContains st.data_channels id
    · have h1 : on_close st id
          = { st with data_channels := dictRemove st.data_channels id } := by
        simp [on_close, h]
      rw [h1]
      simp [on_close, dictContains_remove_self]
    · have h1 : on_close st id = st := by simp [on_close, h]
      rw [h1]
      exact h1
  · intro h
    simp [on_close, h]

theorem claim_C4_witness :
    on_close ⟨[], []⟩ (.str "x") = (⟨[], []⟩ : ServerState)
    ∧ on_close
        (on_close ⟨[], [(.str "a", ⟨some "open", fun _ => true⟩)]⟩ (.str "a"))
        (.str "a")
      = on_close ⟨[], [(.str "a", ⟨some "open", fun _ => true⟩)]⟩ (.str "a") :=
  ⟨(claim_C4 ⟨[], []⟩ (.str "x")).2 rfl,
   (claim_C4 ⟨[], [(.str "a", ⟨some "open", fun _ => true⟩)]⟩ (.str "a")).1⟩

/-- Claim C5. A data-channel message that fails to parse as JSON is answered
through `safe_channel_send` with the `{"type": "error", "message":
"Invalid JSON"}` payload and nothing else; the handler returns normally
(no exception crosses the boundary) and the server state — hence the
connection registry — is untouched. -/
theorem claim_C5 : ∀ (ch : ChannelHandle) (msg freshId ts : String),
    json_loads msg = none →
    on_message ch msg freshId ts
      = Except.ok ⟨[(invalidJsonPayload,
          safe_channel_send (some ch) invalidJsonPayload)], [.info, .warning]⟩
    ∧ (∀ st : ServerState, step st (.channelMessage ch msg freshId ts) = st) := by
  intro ch msg freshId ts h
  constructor
  · simp [on_message, h]
  · intro st
    rfl

theorem claim_C5_witness :
    on_message ⟨some "open", fun _ => true⟩ "not json" "id0" "t0"
      = Except.ok ⟨[(invalidJsonPayload,
          safe_channel_send (some ⟨some "open", fun _ => true⟩) invalidJsonPayload)],
          [.info, .warning]⟩
    ∧ step ⟨[], []⟩
        (.channelMessage ⟨some "open", fun _ => true⟩ "not json" "id0" "t0")
      = (⟨[], []⟩ : ServerState) := by
  have h := claim_C5 ⟨some "open", fun _ => true⟩ "not json" "id0" "t0" rfl
  exact ⟨h.1, h.2 ⟨[], []⟩⟩

/-- A registry with one open channel `"a"` whose transmit always succeeds;
the session `"b"` is not registered. -/
def stC6 : ServerState :=
  ⟨[], [(.str "a", ⟨some "open", fun _ => true⟩)]⟩

/-- Claim C6, counterexample.  The claim says a POST to `/test` with an
unknown `webrtc_id` yields a response listing *zero successful sends*.  But
an unknown id falls into the broadcast branch (lines 330-342), which sends
to every registered channel: with the open channel `"a"` registered and the
unknown id `"b"` requested, the response reports one *successful* send. -/
theorem claim_C6_counterexample :
    dictContains stC6.data_channels (.str "b") = false
    ∧ handle_datachannel_test stC6
        ⟨"application/json", some (.obj [("webrtc_id", .str "b")])⟩ "t0"
      = ⟨200, testResponseBody
          [.obj [("webrtc_id", .str "a"), ("success", .bool true),
            ("channel_state", .str "open")]] 1 "t0"⟩ := by
  exact ⟨rfl, rfl⟩

/-- Claim C6, amended.  A POST to `/test` whose JSON body carries a string
`webrtc_id` not present in the channel registry is answered with HTTP 200
by the *broadcast* branch: the response lists one result per registered
channel — none of them for the unknown id — and only when no channels are
registered does it list zero sends. -/
theorem claim_C6_amended : ∀ (st : ServerState) (fs : List (String × JsonValue))
    (s ts : String),
    objGetD fs "webrtc_id" .null = .str s →
    dictContains st.data_channels (.str s) = false →
    handle_datachannel_test st ⟨"application/json", some (.obj fs)⟩ ts
      = ⟨200, testResponseBody
          (st.data_channels.map fun p => testEntry p.1 p.2
            (.obj [("type", .str "broadcast_test"),
              ("message", objGetD fs "message" (.str "Test message from server"))]))
          st.data_channels.length ts⟩
    ∧ (∀ p ∈ st.data_channels, ¬(p.1 = .str s))
    ∧ (st.data_channels = [] →
        handle_datachannel_test st ⟨"application/json", some (.obj fs)⟩ ts
          = ⟨200, testResponseBody [] 0 ts⟩) := by
  intro st fs s ts hid hnc
  have hbody : handle_datachannel_test st ⟨"application/json", some (.obj fs)⟩ ts
      = ⟨200, testResponseBody
          (st.data_channels.map fun p => testEntry p.1 p.2
            (.obj [("type", .str "broadcast_test"),
              ("message", objGetD fs "message" (.str "Test message from server"))]))
          st.data_channels.length ts⟩ := by
    have h0 : handle_datachannel_test st ⟨"application/json", some (.obj fs)⟩ ts
        = testCore st fs ts := rfl
    rw [h0]
    unfold testCore
    rw [hid]
    by_cases hs : s = ""
    · subst hs
      simp [pyTruthy]
    · have ht : pyTruthy (.str s) = true := by simp [pyTruthy, hs]
      simp only [ht, if_true]
      have hh : pyHashable (.str s) = true := rfl
      simp only [hh, if_true]
      rw [dictGet?_eq_none_of_not_contains st.data_channels (.str s) hnc]
  refine ⟨hbody, forall_keys_ne_of_not_contains st.data_channels (.str s) hnc, ?_⟩
  intro hempty
  rw [hbody, hempty]
  rfl

theorem claim_C6_amended_witness :
    handle_datachannel_test stC6
        ⟨"application/json", some (.obj [("webrtc_id", .str "b")])⟩ "t0"
      = ⟨200, testResponseBody
          (stC6.data_channels.map fun p => testEntry p.1 p.2
            (.obj [("type", .str "broadcast_test"),
              ("message", .str "Test message from server")]))
          stC6.data_channels.length "t0"⟩
    ∧ handle_datachannel_test (⟨[], []⟩ : ServerState)
        ⟨"application/json", some (.obj [("webrtc_id", .str "b")])⟩ "t0"
      = ⟨200, testResponseBody [] 0 "t0"⟩ := by
  have h1 := claim_C6_amended stC6 [("webrtc_id", .str "b")] "b" "t0" rfl rfl
  have h2 := claim_C6_amended ⟨[], []⟩ [("webrtc_id", .str "b")] "b" "t0" rfl rfl
  exact ⟨h1.1, h2.2.2 rfl⟩

/-- Claim C7, counterexample.  The claim says no probe failure prevents the
later probes.  But `diagnose_webrtc_issues` returns early when the
connectivity probe fails (line 150): with connectivity down (and a perfectly
good config available), only the connectivity probe runs — the config,
offer and common-issues probes are skipped. -/
theorem claim_C7_counterexample :
    (diagnose_webrtc_issues
        ⟨false, some (.obj [("rtc_configuration", .obj [])]), true⟩).1
      = [.connectivity]
    ∧ Probe.config ∉ (diagnose_webrtc_issues
        ⟨false, some (.obj [("rtc_configuration", .obj [])]), true⟩).1
    ∧ Probe.offer ∉ (diagnose_webrtc_issues
        ⟨false, some (.obj [("rtc_configuration", .obj [])]), true⟩).1 := by
  exact ⟨rfl, by decide, by decide⟩

/-- Claim C7, amended.  Only an *offer-exchange* failure leaves the rest of
the checklist unaffected (the probe list does not depend on the offer
outcome, and with connectivity and a truthy config all four probes run).  A
connectivity failure aborts everything after the first probe, and a missing
or falsy configuration aborts the offer and common-issues probes. -/
theorem claim_C7_amended : ∀ env : DiagEnv,
    (∀ b : Bool, (diagnose_webrtc_issues ⟨env.connectivityOk, env.configResult, b⟩).1
      = (diagnose_webrtc_issues env).1)
    ∧ (env.connectivityOk = true → ∀ cfg, env.configResult = some cfg →
        pyTruthy cfg = true →
        (diagnose_webrtc_issues env).1
          = [.connectivity, .config, .offer, .commonIssues])
    ∧ (env.connectivityOk = false →
        (diagnose_webrtc_issues env).1 = [.connectivity])
    ∧ (env.connectivityOk = true → env.configResult = none →
        (diagnose_webrtc_issues env).1 = [.connectivity, .config])
    ∧ (env.connectivityOk = true → ∀ cfg, env.configResult = some cfg →
        pyTruthy cfg = false →
        (diagnose_webrtc_issues env).1 = [.connectivity, .config]) := by
  intro env
  obtain ⟨c, cfg, o⟩ := env
  refine ⟨?_, ?_, ?_, ?_, ?_⟩
  · intro b
    cases c with
    | false => rfl
    | true =>
        cases cfg with
        | none => rfl
        | some v =>
            by_cases ht : pyTruthy v = true
            · simp [diagnose_webrtc_issues, ht]
            · have ht' : pyTruthy v = false := by
                cases hv : pyTruthy v
                · rfl
                · exact absurd hv ht
              simp [diagnose_webrtc_issues, ht']
  · rintro rfl cfg0 rfl htr
    simp [diagnose_webrtc_issues, htr]
  · rintro rfl
    rfl
  · rintro rfl rfl
    rfl
  · rintro rfl cfg0 rfl htf
    simp [diagnose_webrtc_issues, htf]

theorem claim_C7_amended_witness :
    (diagnose_webrtc_issues
        ⟨true, some (.obj [("rtc_configuration", .obj [])]), false⟩).1
      = [.connectivity, .config, .offer, .commonIssues]
    ∧ (diagnose_webrtc_issues ⟨true, some (.obj []), true⟩).1
      = [.connectivity, .config] :=
  ⟨(claim_C7_amended ⟨true, some (.obj [("rtc_configuration", .obj [])]), false⟩).2.1
      rfl (.obj [("rtc_configuration", .obj [])]) rfl rfl,
   (claim_C7_amended ⟨true, some (.obj []), true⟩).2.2.2.2
      rfl (.obj []) rfl rfl⟩

/-- A registry in which session `"s"` already has a transport handle. -/
def stC8 : ServerState :=
  ⟨[], [(.str "s", ⟨some "open", fun _ => true⟩)]⟩

/-- Claim C8, counterexample.  The claim says re-attaching a channel to a
session that already has one "emits a warning while doing so".  The
`on_datachannel` callback (lines 201-204) stores the new handle but logs
only the *info* line `"📺 DataChannel established"` — no warning is emitted
even though session `"s"` already had a handle. -/
theorem claim_C8_counterexample :
    dictContains stC8.data_channels (.str "s") = true
    ∧ (on_datachannel stC8 (.str "s") ⟨some "connecting", fun _ => false⟩).2
        = [.info]
    ∧ LogLevel.warning
        ∉ (on_datachannel stC8 (.str "s") ⟨some "connecting", fun _ => false⟩).2 := by
  exact ⟨rfl, rfl, by decide⟩

/-- Claim C8, amended.  Attaching a transport handle to a session that
already has one overwrites the prior handle — but silently: the callback
emits a single info line and no warning, and the connection registry is
untouched. -/
theorem claim_C8_amended : ∀ (st : ServerState) (id : JsonValue)
    (ch : ChannelHandle),
    dictGet? (on_datachannel st id ch).1.data_channels id = some ch
    ∧ (on_datachannel st id ch).1.connections = st.connections
    ∧ (on_datachannel st id ch).2 = [.info]
    ∧ LogLevel.warning ∉ (on_datachannel st id ch).2 := by
  intro st id ch
  refine ⟨dictGet?_insert_self st.data_channels id ch, rfl, rfl, ?_⟩
  simp [on_datachannel]

/-- `handle_webrtc_offer` either leaves the state alone (early failure) or
inserts one peer connection; it never removes one. -/
theorem offer_state (st : ServerState) (req : OfferRequest) (env : OfferEnv)
    (aiortc : Bool) :
    (handle_webrtc_offer st req env aiortc).1 = st
    ∨ ∃ wid pc, (handle_webrtc_offer st req env aiortc).1
        = { st with connections := dictInsert st.connections wid pc } := by
  obtain ⟨body⟩ := req
  rcases body with _ | data
  · left; rfl
  · cases data with
    | obj fs =>
        by_cases hh : pyHashable (objGetD fs "webrtc_id" (.str env.freshId)) = true
        · right
          refine ⟨objGetD fs "webrtc_id" (.str env.freshId),
            (if aiortc then .real else .mock), ?_⟩
          have h0 : handle_webrtc_offer st ⟨some (.obj fs)⟩ env aiortc
              = (if pyHashable (objGetD fs "webrtc_id" (.str env.freshId)) then
                  (let st1 : ServerState := { st with
                    connections := dictInsert st.connections
                      (objGetD fs "webrtc_id" (.str env.freshId))
                      (if aiortc then .real else .mock) }
                  if aiortc then
                    if env.negotiationOk then
                      (st1, ⟨200, .obj [("type", .str env.answerType),
                        ("sdp", .str env.answerSdp)]⟩)
                    else (st1, ⟨500, .obj [("error", .str "negotiation failed")]⟩)
                  else (st1, ⟨500, .obj [("error", .str "TypeError")]⟩))
                else (st, ⟨500, .obj [("error", .str "unhashable type")]⟩)) := rfl
          rw [h0, if_pos hh]
          cases aiortc
          · rfl
          · by_cases hn : env.negotiationOk = true
            · simp only [hn, if_true]
            · have hn' : env.negotiationOk = false := by
                cases hv : env.negotiationOk
                · rfl
                · exact absurd hv hn
              simp only [hn', Bool.false_eq_true, if_false, if_true]
        · left
          have h0 : handle_webrtc_offer st ⟨some (.obj fs)⟩ env aiortc
              = (if pyHashable (objGetD fs "webrtc_id" (.str env.freshId)) then
                  (let st1 : ServerState := { st with
                    connections := dictInsert st.connections
                      (objGetD fs "webrtc_id" (.str env.freshId))
                      (if aiortc then .real else .mock) }
                  if aiortc then
                    if env.negotiationOk then
                      (st1, ⟨200, .obj [("type", .str env.answerType),
                        ("sdp", .str env.answerSdp)]⟩)
                    else (st1, ⟨500, .obj [("error", .str "negotiation failed")]⟩)
                  else (st1, ⟨500, .obj [("error", .str "TypeError")]⟩))
                else (st, ⟨500, .obj [("error", .str "unhashable type")]⟩)) := rfl
          rw [h0, if_neg hh]
    | null => left; rfl
    | bool b => left; rfl
    | num n => left; rfl
    | str s => left; rfl
    | arr xs => left; rfl

/-- Claim C9. No server operation ever removes an entry from `connections`:
every step preserves its keys and never shrinks its size, so the connection
count that `/status` reports (its `connections` field is exactly the size of
the mapping) is monotonically non-decreasing along any trace; and an offer
whose negotiation fails still leaves the just-inserted peer connection
behind while answering 500. -/
theorem claim_C9 :
    (∀ (st : ServerState) (op : ServerOp),
      (∀ k, dictContains st.connections k = true →
        dictContains (step st op).connections k = true)
      ∧ st.connections.length ≤ (step st op).connections.length)
    ∧ (∀ (ops : List ServerOp) (st : ServerState),
        st.connections.length ≤ (ops.foldl step st).connections.length)
    ∧ (∀ (st : ServerState) (aiortc : Bool) (ts : String), ∃ fs,
        handle_status st aiortc ts = ⟨200, .obj fs⟩
        ∧ objGetD fs "connections" .null = .num st.connections.length)
    ∧ (∀ (st : ServerState) (fs : List (String × JsonValue)) (env : OfferEnv),
        pyHashable (objGetD fs "webrtc_id" (.str env.freshId)) = true →
        env.negotiationOk = false →
        (handle_webrtc_offer st ⟨some (.obj fs)⟩ env true).2.status = 500
        ∧ dictContains
            (handle_webrtc_offer st ⟨some (.obj fs)⟩ env true).1.connections
            (objGetD fs "webrtc_id" (.str env.freshId)) = true) := by
  have hstep : ∀ (st : ServerState) (op : ServerOp),
      (∀ k, dictContains st.connections k = true →
        dictContains (step st op).connections k = true)
      ∧ st.connections.length ≤ (step st op).connections.length := by
    intro st op
    cases op with
    | offer req env aiortc =>
        rcases offer_state st req env aiortc with h | ⟨wid, pc, h⟩
        · rw [show step st (.offer req env aiortc)
              = (handle_webrtc_offer st req env aiortc).1 from rfl, h]
          exact ⟨fun k hk => hk, le_refl _⟩
        · rw [show step st (.offer req env aiortc)
              = (handle_webrtc_offer st req env aiortc).1 from rfl, h]
          exact ⟨fun k hk => dictContains_insert_of_contains _ _ _ _ hk,
            dictInsert_length_ge _ _ _⟩
    | datachannel wid ch => exact ⟨fun k hk => hk, le_refl _⟩
    | channelOpen ch => exact ⟨fun k hk => hk, le_refl _⟩
    | channelMessage ch m f t => exact ⟨fun k hk => hk, le_refl _⟩
    | channelClose wid =>
        have h : (step st (.channelClose wid)).connections = st.connections := by
          show (on_close st wid).connections = st.connections
          unfold on_close
          by_cases h : dictContains st.data_channels wid
          · simp [h]
          · simp [h]
        rw [h]
        exact ⟨fun k hk => hk, le_refl _⟩
    | testRequest req t => exact ⟨fun k hk => hk, le_refl _⟩
    | statusRequest a t => exact ⟨fun k hk => hk, le_refl _⟩
  refine ⟨hstep, ?_, ?_, ?_⟩
  · intro ops
    induction ops with
    | nil => intro st; exact le_refl _
    | cons op ops ih =>
        intro st
        exact le_trans (hstep st op).2 (ih (step st op))
  · intro st aiortc ts
    exact ⟨[("server", .str "WebRTC Test Server"), ("status", .str "running"),
      ("connections", .num st.connections.length),
      ("data_channels", .num st.data_channels.length),
      ("aiortc_available", .bool aiortc),
      ("datachannel_fixes", .str "enabled"),
      ("active_sessions", .arr (st.data_channels.map Prod.fst)),
      ("timestamp", .str ts)], rfl, rfl⟩
  · intro st fs env hh hn
    have h1 : handle_webrtc_offer st ⟨some (.obj fs)⟩ env true
        = (if pyHashable (objGetD fs "webrtc_id" (.str env.freshId)) then
            (let st1 : ServerState := { st with
              connections := dictInsert st.connections
                (objGetD fs "webrtc_id" (.str env.freshId)) PeerConn.real }
            if env.negotiationOk then
              (st1, ⟨200, .obj [("type", .str env.answerType),
                ("sdp", .str env.answerSdp)]⟩)
            else (st1, ⟨500, .obj [("error", .str "negotiation failed")]⟩))
          else (st, ⟨500, .obj [("error", .str "unhashable type")]⟩)) := rfl
    rw [h1, if_pos hh]
    simp only [hn, Bool.false_eq_true, if_false]
    exact ⟨trivial, dictContains_insert_self st.connections _ PeerConn.real⟩

theorem claim_C9_witness :
    (handle_webrtc_offer ⟨[], []⟩ ⟨some (.obj [])⟩
        ⟨"u1", false, "answer", "sdp"⟩ true).2.status = 500
    ∧ dictContains (handle_webrtc_offer ⟨[], []⟩ ⟨some (.obj [])⟩
        ⟨"u1", false, "answer", "sdp"⟩ true).1.connections (.str "u1") = true
    ∧ (⟨[(.str "u1", PeerConn.real)], []⟩ : ServerState).connections.length
        ≤ (([ServerOp.channelClose (.str "u1")].foldl step
            ⟨[(.str "u1", PeerConn.real)], []⟩).connections).length := by
  have h := claim_C9.2.2.2 ⟨[], []⟩ [] ⟨"u1", false, "answer", "sdp"⟩ rfl rfl
  have h2 := claim_C9.2.1 [ServerOp.channelClose (.str "u1")]
    ⟨[(.str "u1", PeerConn.real)], []⟩
  exact ⟨h.1, h.2, h2⟩

/-- Claim C10. Any `/test` request whose content type is not
`application/json` (a bodyless GET included) is treated as an empty body: no
`webrtc_id` is extracted, the default test message is used, and the
broadcast branch answers 200 with one result per registered channel. -/
theorem claim_C10 : ∀ (st : ServerState) (ct : String) (body : Option JsonValue)
    (ts : String), ct ≠ "application/json" →
    handle_datachannel_test st ⟨ct, body⟩ ts
      = ⟨200, testResponseBody
          (st.data_channels.map fun p => testEntry p.1 p.2
            (.obj [("type", .str "broadcast_test"),
              ("message", .str "Test message from server")]))
          st.data_channels.length ts⟩ := by
  intro st ct body ts h
  unfold handle_datachannel_test
  rw [if_neg h]
  rfl

/-- A registry with one open channel for the C10 witness. -/
def stC10 : ServerState :=
  ⟨[], [(.str "a", ⟨some "open", fun _ => true⟩)]⟩

theorem claim_C10_witness :
    handle_datachannel_test stC10 ⟨"text/plain", none⟩ "t0"
      = ⟨200, testResponseBody
          [.obj [("webrtc_id", .str "a"), ("success", .bool true),
            ("channel_state", .str "open")]] 1 "t0"⟩ :=
  claim_C10 stC10 "text/plain" none "t0" (by decide)
